import Mathlib

/-!
Verification development for the scona interactive-visualisation tutorial
(`tutorials/interactive_viz_tutorial.ipynb`).

The notebook demonstrates two presentation-parameter mappers,
`view_nodes_3d` and `view_connectome_3d`, imported from
`scona.visualisations`.  The implementation of those two functions is not
part of the files checked here (only their caller, the notebook, is), so
the mappers are modelled from the specification's contract (spec §3, §4,
§7) and the claims are settled against that model.  The hemisphere colour
assignment (`node_colors`) is embedded directly from the notebook source.

Numeric values (edge weights, nodal measures, MNI coordinates, sizes) are
modelled as rationals; colours as strings; a colormap as a function from a
normalised position in `[0, 1]` to a colour string.
-/

namespace Scona

/-- Modelled from the spec: taxonomy of descriptive failures of the two
mappers (spec §4.1, §4.2, §7); the concrete error classes of the missing
`scona.visualisations` code. -/
inductive VizError where
  | lengthMismatchError (expected got : Nat)
  | unknownMeasureError (measure : String)
  | invalidThresholdError (s : String)
deriving DecidableEq

/-- Modelled from the spec: the non-fatal diagnostics a mapper can emit
(spec §4.2, §7 class (d): a threshold that excludes every edge). -/
inductive VizWarning where
  | emptySelection
deriving DecidableEq

/-- Modelled from the spec: one row of the NodalMeasureTable (spec §3):
a node identifier, its MNI coordinates and its named scalar measures. -/
structure NodeRow where
  name : String
  x : ℚ
  y : ℚ
  z : ℚ
  measures : List (String × ℚ)
deriving DecidableEq

/-- Modelled from the spec: one entry of the EdgeWeightMatrix (spec §3),
as the upper-triangle list of node pairs with their weight. -/
structure Edge where
  i : Nat
  j : Nat
  weight : ℚ
deriving DecidableEq

/-- Modelled from the spec: the size specification accepted by the node
attribute mapper (spec §4.1): a constant scalar or a per-node sequence. -/
inductive SizeSpec where
  | const (v : ℚ)
  | perNode (vs : List ℚ)

/-- Modelled from the spec: the colour specification accepted by the node
attribute mapper (spec §4.1): a constant, a per-node sequence, or a
measure name with a continuous flag and optional bounds. -/
inductive ColorSpec where
  | const (c : String)
  | perNode (cs : List String)
  | measureCol (measure : String) (continuous : Bool) (vmin vmax : Option ℚ)

/-- Modelled from the spec: ThresholdSpec (spec §3): `None`, an absolute
numeric cutoff, or a percentile string such as `"98%"`. -/
inductive ThresholdSpec where
  | noFilter
  | numeric (t : ℚ)
  | pct (s : String)

/-- Minimum of a list of rationals (0 for the empty list). -/
def qMin : List ℚ → ℚ
  | [] => 0
  | v :: vs => vs.foldl min v

/-- Maximum of a list of rationals (0 for the empty list). -/
def qMax : List ℚ → ℚ
  | [] => 0
  | v :: vs => vs.foldl max v

/-- Clip a value into the interval `[lo, hi]`. -/
def clipQ (lo hi v : ℚ) : ℚ := max lo (min hi v)

/-- Modelled from the spec: linear mapping of a measure value into the
normalised colormap domain `[0, 1]`, after clipping to `[vmin, vmax]`
(spec §4.1). -/
def normPos (vmin vmax v : ℚ) : ℚ :=
  if vmax = vmin then 0 else (clipQ vmin vmax v - vmin) / (vmax - vmin)

/-- Modelled from the spec: continuous colour mapping of a measure column
(spec §4.1): vmin/vmax default to the minimum and maximum of the measure,
values are clipped to `[vmin, vmax]` and mapped linearly into the
colormap. -/
def continuousColors (cmap : ℚ → String) (vs : List ℚ)
    (vmin vmax : Option ℚ) : List String :=
  vs.map (fun v => cmap (normPos (vmin.getD (qMin vs)) (vmax.getD (qMax vs)) v))

/-- Look up the value of measure `m` in every row; `none` if any row
lacks the measure. -/
def lookupMeasures (table : List NodeRow) (m : String) : Option (List ℚ) :=
  match table with
  | [] => some []
  | r :: rs =>
    match r.measures.lookup m, lookupMeasures rs m with
    | some v, some vs => some (v :: vs)
    | _, _ => Option.none

/-- Modelled from the spec: size resolution of the node attribute mapper
(spec §4.1): a constant is broadcast; a per-node sequence must match the
node count exactly (no truncation or padding) and is passed through with
no clamping, normalisation or rescaling. -/
def resolveSizes (n : Nat) : SizeSpec → Except VizError (List ℚ)
  | .const v => .ok (List.replicate n v)
  | .perNode vs =>
    if vs.length = n then .ok vs else .error (.lengthMismatchError n vs.length)

/-- Modelled from the spec: colour resolution of the node attribute
mapper (spec §4.1): constant broadcast, exact-length per-node sequence,
or colormap over a measure column (qualitative by value, or continuous
with clipping). -/
def resolveColors (cmap : ℚ → String) (table : List NodeRow) :
    ColorSpec → Except VizError (List String)
  | .const c => .ok (List.replicate table.length c)
  | .perNode cs =>
    if cs.length = table.length then .ok cs
    else .error (.lengthMismatchError table.length cs.length)
  | .measureCol m continuous vmin vmax =>
    match lookupMeasures table m with
    | Option.none => .error (.unknownMeasureError m)
    | some vs =>
      if continuous then .ok (continuousColors cmap vs vmin vmax)
      else .ok (vs.map cmap)

/-- Modelled from the spec: the renderer's node input set (spec §4.1,
§8): one `(row, size, colour)` triple per node, where a node with size 0
is omitted from visual display (the zero-size sentinel). -/
def visibleNodes (table : List NodeRow) (sizes : List ℚ)
    (colors : List String) : List (NodeRow × ℚ × String) :=
  ((table.zip sizes).zip colors).filterMap
    (fun p => if 0 < p.1.2 then some (p.1.1, p.1.2, p.2) else Option.none)

/-- Modelled from the spec: the DisplayAttributeSet handed to the
external renderer by the node attribute mapper (spec §3, §6). -/
structure NodesRender where
  nodes : List (NodeRow × ℚ × String)
deriving DecidableEq

/-- Modelled from the spec: the node attribute mapper `view_nodes_3d` of
`scona.visualisations` (spec §4.1), whose implementation is not among the
checked files.  It validates the per-node sequences against the node
count, resolves one size and one colour per node in table order, and
hands the renderer exactly the nodes with nonzero size. -/
def view_nodes_3d (cmap : ℚ → String) (table : List NodeRow)
    (sz : SizeSpec) (col : ColorSpec) : Except VizError NodesRender :=
  match resolveSizes table.length sz with
  | .error e => .error e
  | .ok sizes =>
    match resolveColors cmap table col with
    | .error e => .error e
    | .ok colors => .ok { nodes := visibleNodes table sizes colors }

/-- The weights of the edges present in the supplied matrix. -/
def edgeWeights (M : List Edge) : List ℚ := M.map Edge.weight

/-- Floor of a nonnegative rational, as a natural number. -/
def ratFloorNat (q : ℚ) : Nat := q.num.toNat / q.den

/-- Linear interpolation into a sorted list of values at fractional rank
`h`: the value at position `⌊h⌋`, moved a fraction `h - ⌊h⌋` of the way
towards the next value. -/
def interpAt (s : List ℚ) (h : ℚ) : ℚ :=
  s.getD (ratFloorNat h) 0
    + (h - (ratFloorNat h : ℚ))
      * (s.getD (ratFloorNat h + 1) (s.getD (ratFloorNat h) 0)
          - s.getD (ratFloorNat h) 0)

/-- Modelled from the spec: the p-th percentile of the edge-weight
distribution (spec §4.2, glossary), with the linear-interpolation
convention at fractional ranks (spec §9 leaves the convention to the
implementer; this is the one used by the numeric library underlying the
missing code). -/
def percentile (p : ℚ) (ws : List ℚ) : ℚ :=
  if ws = [] then 0
  else
    interpAt (List.insertionSort (fun a b : ℚ => a ≤ b) ws)
      (p * (((List.insertionSort (fun a b : ℚ => a ≤ b) ws).length : ℚ) - 1) / 100)

/-- Digit string to value, accumulator style; `none` on a non-digit. -/
def digitsValAux (acc : Nat) : List Char → Option Nat
  | [] => some acc
  | c :: cs =>
    if c.isDigit then digitsValAux (acc * 10 + (c.toNat - 48)) cs
    else Option.none

/-- Split a character list at the first dot, if any. -/
def splitDot : List Char → List Char × Option (List Char)
  | [] => ([], Option.none)
  | c :: cs =>
    if c = '.' then ([], some cs)
    else
      match splitDot cs with
      | (a, b) => (c :: a, b)

/-- Parse a nonnegative decimal numeral (digits with at most one dot,
digits required on both sides of a dot). -/
def parseNumber (cs : List Char) : Option ℚ :=
  match splitDot cs with
  | (intPart, Option.none) =>
    if intPart.isEmpty then Option.none
    else (digitsValAux 0 intPart).map (fun n => (n : ℚ))
  | (intPart, some fracPart) =>
    if intPart.isEmpty || fracPart.isEmpty then Option.none
    else
      match digitsValAux 0 intPart, digitsValAux 0 fracPart with
      | some iv, some fv =>
        some ((iv : ℚ) + (fv : ℚ) / ((10 : ℚ) ^ fracPart.length))
      | _, _ => Option.none

/-- Modelled from the spec: parsing of a percentile threshold string
`"<number>%"` (spec §4.2): the string must end in `%` and the part
before it must be a decimal numeral; anything else is malformed. -/
def parsePercent (s : String) : Option ℚ :=
  if s.data.isEmpty then Option.none
  else if s.data.getLastD ' ' = '%' then parseNumber s.data.dropLast
  else Option.none

/-- Modelled from the spec: threshold resolution of the edge selection
mapper (spec §4.2): `noFilter` keeps every edge; a numeric cutoff keeps
edges of absolute weight strictly greater than it; a percentile string is
parsed (malformed strings are a descriptive failure) and edges above the
percentile of the weights present in the supplied matrix are kept. -/
def keptEdges : ThresholdSpec → List Edge → Except VizError (List Edge)
  | .noFilter, M => .ok M
  | .numeric t, M => .ok (M.filter (fun e => t < |e.weight|))
  | .pct s, M =>
    match parsePercent s with
    | Option.none => .error (.invalidThresholdError s)
    | some p => .ok (M.filter (fun e => percentile p (edgeWeights M) < e.weight))

/-- Modelled from the spec: the edge set and diagnostics handed to the
external renderer by the edge selection mapper (spec §4.2, §6). -/
structure ConnectomeRender where
  edges : List Edge
  warnings : List VizWarning
deriving DecidableEq

/-- Modelled from the spec: the edge selection mapper
`view_connectome_3d` of `scona.visualisations` (spec §4.2), whose
implementation is not among the checked files.  It resolves the
threshold, and when the threshold excludes every edge it emits a
non-fatal warning and returns an empty-edge render rather than
aborting (spec §7 class (d)). -/
def view_connectome_3d (t : ThresholdSpec) (M : List Edge) :
    Except VizError ConnectomeRender :=
  match keptEdges t M with
  | .error e => .error e
  | .ok kept =>
    .ok { edges := kept
          warnings := if kept.isEmpty && !M.isEmpty then [.emptySelection] else [] }

/-- Hemisphere colours from the notebook source (cell 30): gold for the
left hemisphere, royal blue for the right. -/
def color_dict : String × String := ("#FFD700", "#4169E1")

/-- From the notebook source (cell 30):
`node_colors = [ color_dict['left'] if x < 0 else color_dict['right']
for x in nodal_df['x'] ]`. -/
def node_colors (xs : List ℚ) : List String :=
  xs.map (fun x => if x < 0 then color_dict.1 else color_dict.2)

/-- Modelled from the spec: the caller's in-memory data for one
interactive session (spec §5, §6): the nodal measure table and the
weighted adjacency structure produced upstream. -/
structure Session where
  table : List NodeRow
  matrixM : List Edge
deriving DecidableEq

/-- Modelled from the spec: a call of the node attribute mapper with the
session state passed explicitly, so that the spec's frame condition
("no mutation of the input table", spec §4.1, §5) is statable. -/
def view_nodes_3d_call (cmap : ℚ → String) (st : Session)
    (sz : SizeSpec) (col : ColorSpec) :
    Session × Except VizError NodesRender :=
  (st, view_nodes_3d cmap st.table sz col)

/-- Modelled from the spec: a call of the edge selection mapper with the
session state passed explicitly (spec §4.2, §5). -/
def view_connectome_3d_call (st : Session) (t : ThresholdSpec) :
    Session × Except VizError ConnectomeRender :=
  (st, view_connectome_3d t st.matrixM)

deriving instance DecidableEq for Except

/-- A 300-row node table for the single-region display example. -/
def table300 : List NodeRow := List.replicate 300 ⟨"region", 0, 0, 0, []⟩

/-- The size sequence of the notebook's single-region example: 15 for
one node, 0 for the other 299. -/
def sizes15 : List ℚ := 15 :: List.replicate 299 0

/-- A 300-edge matrix with pairwise-distinct weights 1, 2, ..., 300. -/
def edges300 : List Edge := (List.range 300).map (fun k => ⟨k, k + 1, (k : ℚ) + 1⟩)

/-- A 300-edge matrix whose weights are all equal (to 1). -/
def tied300 : List Edge := (List.range 300).map (fun k => ⟨k, k + 1, 1⟩)

/-- C3: for a numeric `ThresholdSpec` `t` the edge selection mapper
retains exactly the edges whose weight has absolute value strictly
greater than `t`, independent of how many edges that is; for the `None`
threshold it retains every edge. -/
theorem connectome_numeric_and_none_selection (t : ℚ) (M : List Edge) :
    (∃ r, view_connectome_3d (.numeric t) M = .ok r ∧
        r.edges = M.filter (fun e => t < |e.weight|)) ∧
    (∃ r, view_connectome_3d .noFilter M = .ok r ∧ r.edges = M) :=
  ⟨⟨_, rfl, rfl⟩, ⟨_, rfl, rfl⟩⟩

/-- C6: a threshold string that does not parse as `"<number>%"` makes
the edge selection mapper fail with `invalidThresholdError`; it is never
treated as "no threshold". -/
theorem connectome_malformed_threshold (s : String) (M : List Edge)
    (h : parsePercent s = Option.none) :
    view_connectome_3d (.pct s) M = .error (.invalidThresholdError s) := by
  simp only [view_connectome_3d, keptEdges, h]

/-- Witness for C6 at the malformed string `"abc"`. -/
theorem connectome_malformed_threshold_witness :
    parsePercent "abc" = Option.none ∧
    view_connectome_3d (.pct "abc") [] = .error (.invalidThresholdError "abc") :=
  ⟨by decide, connectome_malformed_threshold "abc" [] (by decide)⟩

/-- C7: when a threshold excludes every edge of a nonempty matrix, the
edge selection mapper does not abort: it returns an empty-edge render
carrying the non-fatal `emptySelection` warning. -/
theorem connectome_empty_selection_warning (t : ThresholdSpec) (M : List Edge)
    (hM : M ≠ []) (h : keptEdges t M = .ok []) :
    view_connectome_3d t M = .ok { edges := [], warnings := [.emptySelection] } := by
  obtain ⟨m, ms, rfl⟩ := List.exists_cons_of_ne_nil hM
  simp [view_connectome_3d, h]

/-- Witness for C7: an absolute threshold of 1 excludes the single
weight-0 edge, and the render is empty-edged with the warning. -/
theorem connectome_empty_selection_warning_witness :
    ([⟨0, 1, 0⟩] : List Edge) ≠ [] ∧
    keptEdges (.numeric 1) [⟨0, 1, 0⟩] = .ok [] ∧
    view_connectome_3d (.numeric 1) [⟨0, 1, 0⟩]
      = .ok { edges := [], warnings := [.emptySelection] } :=
  ⟨by decide, by decide,
    connectome_empty_selection_warning _ _ (by decide) (by decide)⟩

/-- C9: both mappers are pure: a call returns the session state
unchanged, and the output depends only on the consumed input (the table
for the node mapper, the matrix for the edge mapper), so equal inputs
give equal outputs. -/
theorem mappers_pure_frame (cmap : ℚ → String) (st : Session) (sz : SizeSpec)
    (col : ColorSpec) (t : ThresholdSpec) :
    (view_nodes_3d_call cmap st sz col).1 = st ∧
    (view_connectome_3d_call st t).1 = st ∧
    (∀ st', st'.table = st.table →
      (view_nodes_3d_call cmap st' sz col).2 = (view_nodes_3d_call cmap st sz col).2) ∧
    (∀ st', st'.matrixM = st.matrixM →
      (view_connectome_3d_call st' t).2 = (view_connectome_3d_call st t).2) := by
  refine ⟨rfl, rfl, ?_, ?_⟩
  · intro st' h
    simp [view_nodes_3d_call, h]
  · intro st' h
    simp [view_connectome_3d_call, h]

/-- Witness for C9 at concrete sessions (two sessions agreeing on the
consumed input give the same output). -/
theorem mappers_pure_frame_witness :
    (view_nodes_3d_call (fun _ => "c") ⟨[], []⟩ (.const 5) (.const "k")).1 = ⟨[], []⟩ ∧
    (view_connectome_3d_call ⟨[], []⟩ .noFilter).1 = ⟨[], []⟩ ∧
    (view_nodes_3d_call (fun _ => "c") ⟨[], [⟨0, 1, 1⟩]⟩ (.const 5) (.const "k")).2
      = (view_nodes_3d_call (fun _ => "c") ⟨[], []⟩ (.const 5) (.const "k")).2 ∧
    (view_connectome_3d_call ⟨[⟨"A", 0, 0, 0, []⟩], []⟩ .noFilter).2
      = (view_connectome_3d_call ⟨[], []⟩ .noFilter).2 :=
  ⟨(mappers_pure_frame (fun _ => "c") ⟨[], []⟩ (.const 5) (.const "k") .noFilter).1,
    (mappers_pure_frame (fun _ => "c") ⟨[], []⟩ (.const 5) (.const "k") .noFilter).2.1,
    (mappers_pure_frame (fun _ => "c") ⟨[], []⟩ (.const 5) (.const "k") .noFilter).2.2.1
      ⟨[], [⟨0, 1, 1⟩]⟩ rfl,
    (mappers_pure_frame (fun _ => "c") ⟨[], []⟩ (.const 5) (.const "k") .noFilter).2.2.2
      ⟨[⟨"A", 0, 0, 0, []⟩], []⟩ rfl⟩

/-- C10: in the notebook's hemisphere colouring, a node gets the
left-hemisphere colour `"#FFD700"` exactly when its x coordinate is
strictly negative, and a node with x = 0 gets the right-hemisphere
colour `"#4169E1"`. -/
theorem node_colors_hemisphere (xs : List ℚ) (i : Nat) (h : i < xs.length) :
    ((node_colors xs).getD i "" = "#FFD700" ↔ xs.getD i 0 < 0) ∧
    (xs.getD i 0 = 0 → (node_colors xs).getD i "" = "#4169E1") := by
  have hx : (node_colors xs).getD i ""
      = if xs.getD i 0 < 0 then "#FFD700" else "#4169E1" := by
    simp [node_colors, color_dict, List.getD_eq_getElem?_getD, List.getElem?_map,
      List.getElem?_eq_getElem h]
  constructor
  · rw [hx]
    by_cases hc : xs.getD i 0 < 0
    · simp [hc]
    · rw [if_neg hc]
      simp only [hc, iff_false]
      decide
  · intro h0
    rw [hx, if_neg (by rw [h0]; exact lt_irrefl 0)]

/-- Witness for C10 at a two-node list with x = -3 and x = 0. -/
theorem node_colors_hemisphere_witness :
    (0 : Nat) < [(-3 : ℚ), 0].length ∧
    (((node_colors [(-3 : ℚ), 0]).getD 0 "" = "#FFD700"
        ↔ [(-3 : ℚ), 0].getD 0 0 < 0) ∧
      ([(-3 : ℚ), 0].getD 0 0 = 0
        → (node_colors [(-3 : ℚ), 0]).getD 0 "" = "#4169E1")) :=
  ⟨by decide, node_colors_hemisphere [(-3 : ℚ), 0] 0 (by decide)⟩

/-- C5: a per-node size or colour sequence whose length differs from the
node count makes the node attribute mapper fail with
`lengthMismatchError`; it is never truncated or padded. -/
theorem view_nodes_length_mismatch (cmap : ℚ → String) (table : List NodeRow) :
    (∀ (vs : List ℚ) (col : ColorSpec), vs.length ≠ table.length →
      view_nodes_3d cmap table (.perNode vs) col
        = .error (.lengthMismatchError table.length vs.length)) ∧
    (∀ (v : ℚ) (cs : List String), cs.length ≠ table.length →
      view_nodes_3d cmap table (.const v) (.perNode cs)
        = .error (.lengthMismatchError table.length cs.length)) := by
  constructor
  · intro vs col h
    simp [view_nodes_3d, resolveSizes, h]
  · intro v cs h
    simp [view_nodes_3d, resolveSizes, resolveColors, h]

/-- Witness for C5: one size (resp. colour) entry against an empty node
table fails with the descriptive length mismatch. -/
theorem view_nodes_length_mismatch_witness :
    ([(5 : ℚ)] : List ℚ).length ≠ ([] : List NodeRow).length ∧
    view_nodes_3d (fun _ => "c") [] (.perNode [(5 : ℚ)]) (.const "k")
      = .error (.lengthMismatchError 0 1) ∧
    view_nodes_3d (fun _ => "c") [] (.const 5) (.perNode ["k"])
      = .error (.lengthMismatchError 0 1) := by
  refine ⟨by decide, ?_, ?_⟩
  · exact (view_nodes_length_mismatch _ _).1 [5] (.const "k") (by decide)
  · exact (view_nodes_length_mismatch _ _).2 5 ["k"] (by decide)

/-- The sizes of the rendered nodes are exactly the strictly positive
entries of the size sequence, in order. -/
lemma visibleNodes_map_sizes :
    ∀ (t : List NodeRow) (vs : List ℚ) (cs : List String),
      vs.length = t.length → cs.length = t.length →
      (visibleNodes t vs cs).map (fun p => p.2.1) = vs.filter (fun v => 0 < v) := by
  intro t
  induction t with
  | nil =>
    intro vs cs h1 h2
    rw [List.length_nil, List.length_eq_zero] at h1
    subst h1
    simp [visibleNodes]
  | cons r t ih =>
    intro vs cs h1 h2
    cases vs with
    | nil => simp at h1
    | cons v vs' =>
      cases cs with
      | nil => simp at h2
      | cons c cs' =>
        have ih' := ih vs' cs' (by simpa using h1) (by simpa using h2)
        by_cases hv : 0 < v
        · simp [visibleNodes, List.filter_cons, hv] at ih' ⊢
          exact ih'
        · simp [visibleNodes, List.filter_cons, hv] at ih' ⊢
          exact ih'

/-- When every size is strictly positive, the rendered node list carries
exactly the input sizes and exactly the input rows, in order. -/
lemma visibleNodes_all_pos :
    ∀ (t : List NodeRow) (vs : List ℚ) (cs : List String),
      vs.length = t.length → cs.length = t.length →
      (∀ v ∈ vs, 0 < v) →
      (visibleNodes t vs cs).map (fun p => p.2.1) = vs ∧
      (visibleNodes t vs cs).map (fun p => p.1) = t := by
  intro t
  induction t with
  | nil =>
    intro vs cs h1 h2 _
    rw [List.length_nil, List.length_eq_zero] at h1
    subst h1
    simp [visibleNodes]
  | cons r t ih =>
    intro vs cs h1 h2 hpos
    cases vs with
    | nil => simp at h1
    | cons v vs' =>
      cases cs with
      | nil => simp at h2
      | cons c cs' =>
        have hv : 0 < v := hpos v (by simp)
        have ih' := ih vs' cs' (by simpa using h1) (by simpa using h2)
          (fun w hw => hpos w (by simp [hw]))
        simp [visibleNodes, hv] at ih' ⊢
        exact ih'

/-- C1: with a valid per-node size sequence, exactly the nodes with a
strictly positive size appear in the renderer's node input: a node of
size 0 is omitted, every rendered node has positive size, and the
rendered sizes are the positive entries in order. -/
theorem view_nodes_zero_size_omitted (cmap : ℚ → String) (table : List NodeRow)
    (vs : List ℚ) (c : String) (h : vs.length = table.length) :
    ∃ r, view_nodes_3d cmap table (.perNode vs) (.const c) = .ok r ∧
      r.nodes.map (fun p => p.2.1) = vs.filter (fun v => 0 < v) ∧
      (∀ p ∈ r.nodes, 0 < p.2.1) ∧
      r.nodes.length = (vs.filter (fun v => 0 < v)).length := by
  have hok : view_nodes_3d cmap table (.perNode vs) (.const c)
      = .ok { nodes := visibleNodes table vs (List.replicate table.length c) } := by
    simp [view_nodes_3d, resolveSizes, resolveColors, h]
  have hmap := visibleNodes_map_sizes table vs (List.replicate table.length c) h (by simp)
  refine ⟨_, hok, hmap, ?_, ?_⟩
  · intro p hp
    have hmem : p.2.1 ∈ (visibleNodes table vs
        (List.replicate table.length c)).map (fun p => p.2.1) :=
      List.mem_map_of_mem _ hp
    rw [hmap] at hmem
    exact of_decide_eq_true (List.mem_filter.mp hmem).2
  · rw [← hmap, List.length_map]

set_option maxRecDepth 100000 in
/-- Witness for C1 at the notebook's single-region size sequence. -/
theorem view_nodes_zero_size_omitted_witness :
    sizes15.length = table300.length ∧
    ∃ r, view_nodes_3d (fun _ => "c") table300 (.perNode sizes15) (.const "Red")
        = .ok r ∧ r.nodes.length = 1 := by
  have h : sizes15.length = table300.length := by simp [sizes15, table300]
  obtain ⟨r, hok, hmap, hall, hlen⟩ :=
    view_nodes_zero_size_omitted (fun _ => "c") table300 sizes15 "Red" h
  refine ⟨h, r, hok, ?_⟩
  rw [hlen]
  decide

/-- C4: the node attribute mapper is the identity on valid size
sequences: all entries strictly positive and length matching the node
count give back exactly that sequence, in order, with the full row list
(no clamping, normalisation or rescaling). -/
theorem view_nodes_identity_on_valid_sizes (cmap : ℚ → String) (table : List NodeRow)
    (vs : List ℚ) (c : String) (h : vs.length = table.length)
    (hpos : ∀ v ∈ vs, 0 < v) :
    ∃ r, view_nodes_3d cmap table (.perNode vs) (.const c) = .ok r ∧
      r.nodes.map (fun p => p.2.1) = vs ∧
      r.nodes.map (fun p => p.1) = table := by
  have hok : view_nodes_3d cmap table (.perNode vs) (.const c)
      = .ok { nodes := visibleNodes table vs (List.replicate table.length c) } := by
    simp [view_nodes_3d, resolveSizes, resolveColors, h]
  obtain ⟨h1, h2⟩ :=
    visibleNodes_all_pos table vs (List.replicate table.length c) h (by simp) hpos
  exact ⟨_, hok, h1, h2⟩

/-- Witness for C4 at a two-node table with sizes 3 and 7. -/
theorem view_nodes_identity_on_valid_sizes_witness :
    ([3, 7] : List ℚ).length
        = ([⟨"A", 0, 0, 0, []⟩, ⟨"B", 1, 2, 3, []⟩] : List NodeRow).length ∧
    (∀ v ∈ ([3, 7] : List ℚ), 0 < v) ∧
    ∃ r, view_nodes_3d (fun _ => "c") [⟨"A", 0, 0, 0, []⟩, ⟨"B", 1, 2, 3, []⟩]
        (.perNode [3, 7]) (.const "coral") = .ok r ∧
      r.nodes.map (fun p => p.2.1) = [3, 7] ∧
      r.nodes.map (fun p => p.1) = [⟨"A", 0, 0, 0, []⟩, ⟨"B", 1, 2, 3, []⟩] :=
  ⟨by decide, by decide,
    view_nodes_identity_on_valid_sizes _ _ _ _ (by decide) (by decide)⟩

/-- A left fold by `min` is below its seed, below every element, and is
either the seed or an element. -/
lemma foldl_min_spec (xs : List ℚ) : ∀ a : ℚ,
    (xs.foldl min a = a ∨ xs.foldl min a ∈ xs) ∧
    xs.foldl min a ≤ a ∧ ∀ x ∈ xs, xs.foldl min a ≤ x := by
  induction xs with
  | nil =>
    intro a
    simp
  | cons y ys ih =>
    intro a
    obtain ⟨hmem, hle, hall⟩ := ih (min a y)
    refine ⟨?_, ?_, ?_⟩
    · rcases hmem with hm | hm
      · rcases min_choice a y with hc | hc
        · left
          rw [List.foldl_cons, hm, hc]
        · right
          rw [List.foldl_cons, hm, hc]
          exact List.mem_cons_self y ys
      · right
        rw [List.foldl_cons]
        exact List.mem_cons_of_mem y hm
    · rw [List.foldl_cons]
      exact le_trans hle (min_le_left a y)
    · intro x hx
      rcases List.mem_cons.mp hx with rfl | hx'
      · rw [List.foldl_cons]
        exact le_trans hle (min_le_right a x)
      · rw [List.foldl_cons]
        exact hall x hx'

/-- A left fold by `max` is above its seed, above every element, and is
either the seed or an element. -/
lemma foldl_max_spec (xs : List ℚ) : ∀ a : ℚ,
    (xs.foldl max a = a ∨ xs.foldl max a ∈ xs) ∧
    a ≤ xs.foldl max a ∧ ∀ x ∈ xs, x ≤ xs.foldl max a := by
  induction xs with
  | nil =>
    intro a
    simp
  | cons y ys ih =>
    intro a
    obtain ⟨hmem, hle, hall⟩ := ih (max a y)
    refine ⟨?_, ?_, ?_⟩
    · rcases hmem with hm | hm
      · rcases max_choice a y with hc | hc
        · left
          rw [List.foldl_cons, hm, hc]
        · right
          rw [List.foldl_cons, hm, hc]
          exact List.mem_cons_self y ys
      · right
        rw [List.foldl_cons]
        exact List.mem_cons_of_mem y hm
    · rw [List.foldl_cons]
      exact le_trans (le_max_left a y) hle
    · intro x hx
      rcases List.mem_cons.mp hx with rfl | hx'
      · rw [List.foldl_cons]
        exact le_trans (le_max_right a x) hle
      · rw [List.foldl_cons]
        exact hall x hx'

/-- `qMin` of a nonempty list is an element and a lower bound. -/
lemma qMin_spec (vs : List ℚ) (hne : vs ≠ []) :
    qMin vs ∈ vs ∧ ∀ x ∈ vs, qMin vs ≤ x := by
  obtain ⟨v, vs', rfl⟩ := List.exists_cons_of_ne_nil hne
  obtain ⟨hmem, hle, hall⟩ := foldl_min_spec vs' v
  constructor
  · rcases hmem with hm | hm
    · rw [qMin, hm]
      exact List.mem_cons_self v vs'
    · rw [qMin]
      exact List.mem_cons_of_mem v hm
  · intro x hx
    rcases List.mem_cons.mp hx with rfl | hx'
    · rw [qMin]
      exact hle
    · rw [qMin]
      exact hall x hx'

/-- `qMax` of a nonempty list is an element and an upper bound. -/
lemma qMax_spec (vs : List ℚ) (hne : vs ≠ []) :
    qMax vs ∈ vs ∧ ∀ x ∈ vs, x ≤ qMax vs := by
  obtain ⟨v, vs', rfl⟩ := List.exists_cons_of_ne_nil hne
  obtain ⟨hmem, hle, hall⟩ := foldl_max_spec vs' v
  constructor
  · rcases hmem with hm | hm
    · rw [qMax, hm]
      exact List.mem_cons_self v vs'
    · rw [qMax]
      exact List.mem_cons_of_mem v hm
  · intro x hx
    rcases List.mem_cons.mp hx with rfl | hx'
    · rw [qMax]
      exact hle
    · rw [qMax]
      exact hall x hx'

/-- C8: continuous colour mapping clips to the caller's bounds: any
measure value below `vmin` gets the colormap's minimum colour `cmap 0`,
any value above `vmax` its maximum colour `cmap 1`; and when no bounds
are supplied they default to the minimum and maximum of the measure. -/
theorem continuous_color_clipping (cmap : ℚ → String) (vs : List ℚ)
    (vmin vmax : ℚ) (h : vmin < vmax) :
    continuousColors cmap vs (some vmin) (some vmax)
        = vs.map (fun v => cmap (normPos vmin vmax v)) ∧
    (∀ v, v < vmin → cmap (normPos vmin vmax v) = cmap 0) ∧
    (∀ v, vmax < v → cmap (normPos vmin vmax v) = cmap 1) ∧
    continuousColors cmap vs Option.none Option.none
        = vs.map (fun v => cmap (normPos (qMin vs) (qMax vs) v)) ∧
    (vs ≠ [] → (qMin vs ∈ vs ∧ ∀ x ∈ vs, qMin vs ≤ x) ∧
      (qMax vs ∈ vs ∧ ∀ x ∈ vs, x ≤ qMax vs)) := by
  have hne : vmax ≠ vmin := ne_of_gt h
  refine ⟨rfl, ?_, ?_, rfl, ?_⟩
  · intro v hv
    have h1 : min vmax v = v := min_eq_right (le_of_lt (hv.trans h))
    have h2 : max vmin v = vmin := max_eq_left (le_of_lt hv)
    simp only [normPos, clipQ, if_neg hne, h1, h2, sub_self, zero_div]
  · intro v hv
    have h1 : min vmax v = vmax := min_eq_left (le_of_lt hv)
    have h2 : max vmin vmax = vmax := max_eq_right (le_of_lt h)
    simp only [normPos, clipQ, if_neg hne, h1, h2,
      div_self (sub_ne_zero.mpr hne)]
  · intro hvs
    exact ⟨qMin_spec vs hvs, qMax_spec vs hvs⟩

/-- Witness for C8: with bounds [2, 4], the value 1 (below vmin) gets
the minimum colour and the value 5 (above vmax) the maximum colour. -/
theorem continuous_color_clipping_witness :
    ((2 : ℚ) < 4) ∧ ((1 : ℚ) < 2) ∧ ((4 : ℚ) < 5) ∧
    (fun q => if q ≤ (0 : ℚ) then "lo" else "hi") (normPos 2 4 1)
      = (fun q => if q ≤ (0 : ℚ) then "lo" else "hi") 0 ∧
    (fun q => if q ≤ (0 : ℚ) then "lo" else "hi") (normPos 2 4 5)
      = (fun q => if q ≤ (0 : ℚ) then "lo" else "hi") 1 := by
  refine ⟨by norm_num, by norm_num, by norm_num, ?_, ?_⟩
  · exact (continuous_color_clipping (fun q => if q ≤ (0 : ℚ) then "lo" else "hi")
      [3] 2 4 (by norm_num)).2.1 1 (by norm_num)
  · exact (continuous_color_clipping (fun q => if q ≤ (0 : ℚ) then "lo" else "hi")
      [3] 2 4 (by norm_num)).2.2.1 5 (by norm_num)

/-- A ≤-sorted list with pairwise-distinct entries is <-sorted. -/
lemma sorted_lt_of_le_ne (s : List ℚ)
    (h1 : s.Sorted (fun a b : ℚ => a ≤ b))
    (h2 : s.Pairwise (fun a b : ℚ => a ≠ b)) :
    s.Sorted (fun a b : ℚ => a < b) :=
  (List.Pairwise.and h1 h2).imp (fun hab => lt_of_le_of_ne hab.1 hab.2)

/-- In a strictly sorted list, if `q` lies strictly between the entries
at positions `k` and `k + 1`, then exactly the `length - (k + 1)` last
entries are strictly above `q`. -/
lemma sorted_filter_gt_length (s : List ℚ) (hs : s.Sorted (fun a b : ℚ => a < b))
    (q : ℚ) (k : Nat) (hk1 : k < s.length) (hk2 : k + 1 < s.length)
    (h1 : s.get ⟨k, hk1⟩ < q) (h2 : q < s.get ⟨k + 1, hk2⟩) :
    (s.filter (fun w => q < w)).length = s.length - (k + 1) := by
  have htake : (s.take (k + 1)).filter (fun w => decide (q < w)) = [] := by
    rw [List.filter_eq_nil_iff]
    intro x hx
    obtain ⟨i, hi, hxe⟩ := List.mem_iff_getElem.mp hx
    have hik : i < k + 1 := by
      rw [List.length_take] at hi
      omega
    have hi' : i < s.length := by
      rw [List.length_take] at hi
      omega
    have hxe' : s.get ⟨i, hi'⟩ = x := by
      rw [← hxe]
      simp [List.getElem_take]
    have hle : s.get ⟨i, hi'⟩ ≤ s.get ⟨k, hk1⟩ := by
      rcases Nat.lt_or_ge i k with hik' | hik'
      · exact le_of_lt (hs.rel_get_of_lt (Fin.mk_lt_mk.mpr hik'))
      · have hik'' : i = k := by omega
        subst hik''
        exact le_refl _
    rw [hxe'] at hle
    have hxq : x < q := lt_of_le_of_lt hle h1
    simp only [decide_eq_true_eq]
    exact not_lt.mpr (le_of_lt hxq)
  have hdrop : (s.drop (k + 1)).filter (fun w => decide (q < w)) = s.drop (k + 1) := by
    rw [List.filter_eq_self]
    intro x hx
    obtain ⟨j, hj, hxe⟩ := List.mem_iff_getElem.mp hx
    have hj' : k + 1 + j < s.length := by
      rw [List.length_drop] at hj
      omega
    have hxe' : s.get ⟨k + 1 + j, hj'⟩ = x := by
      rw [← hxe]
      simp [List.getElem_drop]
    have hge : s.get ⟨k + 1, hk2⟩ ≤ s.get ⟨k + 1 + j, hj'⟩ := by
      rcases Nat.eq_zero_or_pos j with rfl | hjpos
      · exact le_refl _
      · exact le_of_lt (hs.rel_get_of_lt (Fin.mk_lt_mk.mpr (by omega)))
    rw [hxe'] at hge
    have hqx : q < x := lt_of_lt_of_le h2 hge
    simp only [decide_eq_true_eq]
    exact hqx
  calc (s.filter (fun w => q < w)).length
      = ((s.take (k + 1) ++ s.drop (k + 1)).filter (fun w => decide (q < w))).length := by
        rw [List.take_append_drop]
    _ = ((s.take (k + 1)).filter (fun w => decide (q < w))).length
        + ((s.drop (k + 1)).filter (fun w => decide (q < w))).length := by
        rw [List.filter_append, List.length_append]
    _ = s.length - (k + 1) := by
        rw [htake, hdrop, List.length_drop]
        simp

attribute [local semireducible] Rat.add Rat.mul Rat.inv Rat.sub in
/-- For 300 pairwise-distinct weights, exactly 6 lie strictly above the
98th percentile (linear-interpolation convention). -/
lemma filter_gt_percentile98 (ws : List ℚ) (h300 : ws.length = 300)
    (hd : ws.Pairwise (fun a b : ℚ => a ≠ b)) :
    (ws.filter (fun w => percentile 98 ws < w)).length = 6 := by
  have hwsne : ws ≠ [] := by
    intro hcon
    rw [hcon] at h300
    simp at h300
  set s : List ℚ := List.insertionSort (fun a b : ℚ => a ≤ b) ws with hs
  have hperm : s.Perm ws := List.perm_insertionSort _ ws
  have hlen : s.length = 300 := by rw [hperm.length_eq, h300]
  have hsle : s.Sorted (fun a b : ℚ => a ≤ b) := List.sorted_insertionSort _ ws
  have hne : s.Pairwise (fun a b : ℚ => a ≠ b) :=
    (hperm.pairwise_iff (fun hxy => Ne.symm hxy)).mpr hd
  have hslt := sorted_lt_of_le_ne s hsle hne
  have hk1 : (293 : Nat) < s.length := by omega
  have hk2 : (293 + 1 : Nat) < s.length := by omega
  have harg : 98 * ((s.length : ℚ) - 1) / 100 = 14651 / 50 := by
    rw [hlen]
    norm_num
  have hfl : ratFloorNat (14651 / 50 : ℚ) = 293 := by decide
  have hq : percentile 98 ws
      = s.get ⟨293, hk1⟩
        + (1 / 50) * (s.get ⟨293 + 1, hk2⟩ - s.get ⟨293, hk1⟩) := by
    simp only [percentile, if_neg hwsne, ← hs, interpAt, harg, hfl]
    simp only [List.getD_eq_getElem?_getD, List.getElem?_eq_getElem hk1,
      List.getElem?_eq_getElem hk2, Option.getD_some, List.get_eq_getElem]
    norm_num
  have hab : s.get ⟨293, hk1⟩ < s.get ⟨293 + 1, hk2⟩ :=
    hslt.rel_get_of_lt (Fin.mk_lt_mk.mpr (by omega))
  have hq1 : s.get ⟨293, hk1⟩ < percentile 98 ws := by
    rw [hq]
    have hpos := mul_pos (show (0 : ℚ) < 1 / 50 by norm_num) (sub_pos.mpr hab)
    linarith
  have hq2 : percentile 98 ws < s.get ⟨293 + 1, hk2⟩ := by
    rw [hq]
    have hpos := mul_pos (show (0 : ℚ) < 49 / 50 by norm_num) (sub_pos.mpr hab)
    linarith
  have hcount := sorted_filter_gt_length s hslt (percentile 98 ws) 293 hk1 hk2 hq1 hq2
  have hfperm : (s.filter (fun w => decide (percentile 98 ws < w))).length
      = (ws.filter (fun w => decide (percentile 98 ws < w))).length :=
    (hperm.filter _).length_eq
  rw [← hfperm, hcount, hlen]

/-- C2 (amended): a well-formed percentile string cuts at that
percentile of all the weights present in the supplied matrix and retains
exactly the edges above it; and with 300 pairwise-distinct edge weights
the `"98%"` threshold retains exactly 6 = ⌈2%⌉ of the 300 edges. -/
theorem view_connectome_pct98_distinct (M : List Edge)
    (hlen : M.length = 300)
    (hdist : (edgeWeights M).Pairwise (fun a b : ℚ => a ≠ b)) :
    (∀ (s : String) (p : ℚ) (N : List Edge), parsePercent s = some p →
      ∃ r, view_connectome_3d (.pct s) N = .ok r ∧
        r.edges = N.filter (fun e => percentile p (edgeWeights N) < e.weight)) ∧
    ∃ r, view_connectome_3d (.pct "98%") M = .ok r ∧
      r.edges = M.filter (fun e => percentile 98 (edgeWeights M) < e.weight) ∧
      r.edges.length = 6 := by
  have hgen : ∀ (s : String) (p : ℚ) (N : List Edge), parsePercent s = some p →
      ∃ r, view_connectome_3d (.pct s) N = .ok r ∧
        r.edges = N.filter (fun e => percentile p (edgeWeights N) < e.weight) := by
    intro s p N hparse
    have hok : view_connectome_3d (.pct s) N = .ok
        { edges := N.filter (fun e => percentile p (edgeWeights N) < e.weight)
          warnings :=
            if (N.filter (fun e => percentile p (edgeWeights N) < e.weight)).isEmpty
                && !N.isEmpty then [.emptySelection] else [] } := by
      simp only [view_connectome_3d, keptEdges, hparse]
    exact ⟨_, hok, rfl⟩
  have hwlen : (edgeWeights M).length = 300 := by
    rw [edgeWeights, List.length_map, hlen]
  have hcount := filter_gt_percentile98 (edgeWeights M) hwlen hdist
  have hmap : (edgeWeights M).filter
        (fun w => decide (percentile 98 (edgeWeights M) < w))
      = (M.filter (fun e => decide (percentile 98 (edgeWeights M) < e.weight))).map
          Edge.weight := by
    rw [edgeWeights]
    exact List.filter_map Edge.weight M
  have hlength := congrArg List.length hmap
  rw [List.length_map] at hlength
  obtain ⟨r, hok, he⟩ := hgen "98%" 98 M (by decide)
  refine ⟨hgen, r, hok, he, ?_⟩
  rw [he]
  show (M.filter (fun e => decide (percentile 98 (edgeWeights M) < e.weight))).length = 6
  rw [← hlength]
  exact hcount

/-- Witness for C2 (amended) at the matrix with weights 1, ..., 300. -/
theorem view_connectome_pct98_distinct_witness :
    edges300.length = 300 ∧
    (edgeWeights edges300).Pairwise (fun a b : ℚ => a ≠ b) ∧
    ∃ r, view_connectome_3d (.pct "98%") edges300 = .ok r ∧
      r.edges = edges300.filter
        (fun e => percentile 98 (edgeWeights edges300) < e.weight) ∧
      r.edges.length = 6 := by
  have h1 : edges300.length = 300 := by simp [edges300]
  have h2 : (edgeWeights edges300).Pairwise (fun a b : ℚ => a ≠ b) := by
    have hmaps : edgeWeights edges300
        = (List.range 300).map (fun k : Nat => (k : ℚ) + 1) := by
      simp only [edgeWeights, edges300, List.map_map]
      rfl
    rw [hmaps]
    refine List.Pairwise.map _ (fun a b hab => ?_) (List.pairwise_lt_range 300)
    have hcast : (a : ℚ) < (b : ℚ) := by exact_mod_cast hab
    exact ne_of_lt (by linarith)
  obtain ⟨r, hok, he, hn⟩ := (view_connectome_pct98_distinct edges300 h1 h2).2
  exact ⟨h1, h2, r, hok, he, hn⟩

attribute [local semireducible] Rat.add Rat.mul Rat.inv Rat.sub in
set_option maxRecDepth 100000 in
/-- Counterexample to C2 as stated: a 300-edge matrix whose weights are
all equal.  Its 98th percentile equals the common weight, no edge is
strictly above it, and the `"98%"` threshold retains 0 edges, not 6. -/
theorem view_connectome_pct98_tied_counterexample :
    tied300.length = 300 ∧
    ∃ r, view_connectome_3d (.pct "98%") tied300 = .ok r ∧
      r.edges.length = 0 ∧ r.edges.length ≠ 6 :=
  ⟨by decide,
    ⟨{ edges := [], warnings := [.emptySelection] }, by decide, by decide, by decide⟩⟩

end Scona
